import Mathlib

/-!
Verification of the transactional state manager
(`openchain/ledger/statemgmt/state/state.go`).

The Go source is embedded shallowly: machine integers become `Nat` with
explicit `% 2 ^ 64` where wraparound matters, `panic` becomes `Option`
(`none` = the call aborts and no successor state is produced), Go maps
become association lists whose lookup takes the most recent binding, and
the out-of-scope collaborators (`statemgmt.StateDelta`,
`statemgmt.HashableState`, the RocksDB write batch and database handle)
are modelled from the spec's collaborator contracts.
-/

namespace Fabric

/-- A byte string, as a list of byte values. -/
abbrev Bytes := List Nat

/-- Big-endian base-256 encoding of `n` into `w` bytes, most significant
first; byte `i` (from the left) is `n / 256 ^ (w - 1 - i) % 256`.  This is
what `binary.BigEndian.PutUint64` computes for `w = 8`. -/
def encodeBE : Nat → Nat → Bytes
  | 0, _ => []
  | w + 1, n => n / 256 ^ w % 256 :: encodeBE w n

/-- Big-endian base-256 decoding, as `binary.BigEndian.Uint64` computes it:
fold the bytes left to right, multiplying the accumulator by 256. -/
def decodeBE (bs : Bytes) : Nat :=
  bs.foldl (fun acc b => acc * 256 + b) 0

/-- From `encodeUint64` in state.go: the 8-byte big-endian encoding of a
block number (a Go `uint64`, modelled as a `Nat` taken mod `2 ^ 64`). -/
def encodeUint64 (number : Nat) : Bytes :=
  encodeBE 8 number

/-- From `decodeToUint64` in state.go. -/
def decodeToUint64 (bytes : Bytes) : Nat :=
  decodeBE bytes

/-- From `encodeStateDeltaKey` in state.go. -/
def encodeStateDeltaKey (blockNumber : Nat) : Bytes :=
  encodeUint64 blockNumber

/-- From `decodeStateDeltaKey` in state.go. -/
def decodeStateDeltaKey (dbkey : Bytes) : Nat :=
  decodeToUint64 dbkey

/-- Strict lexicographic order on byte strings, a shorter string being
smaller than any proper extension, as the underlying store compares keys. -/
def bytesLexLt : Bytes → Bytes → Bool
  | [], [] => false
  | [], _ :: _ => true
  | _ :: _, [] => false
  | a :: as, b :: bs => a < b || (a == b && bytesLexLt as bs)

/-- Modelled from the spec: the value-or-tombstone recorded by a State
Delta entry; `value = none` is a recorded deletion, and `GetValue` on it
yields the absent value, as in the collaborator contract. -/
structure UpdatedValue where
  value : Option Bytes
deriving DecidableEq

/-- Modelled from the spec: a State Delta is a mapping from
(namespace, key) to a recorded value-change; later recordings override
earlier ones, so lookups take the most recent binding. -/
structure StateDelta where
  entries : List ((String × String) × UpdatedValue)
deriving DecidableEq

/-- Modelled from the spec: `statemgmt.NewStateDelta()`, the empty delta. -/
def NewStateDelta : StateDelta := ⟨[]⟩

/-- Modelled from the spec: delta lookup, most recent recording first. -/
def StateDelta.get (d : StateDelta) (chaincodeID key : String) : Option UpdatedValue :=
  d.entries.lookup (chaincodeID, key)

/-- Modelled from the spec: record a set-to-value change. -/
def StateDelta.set (d : StateDelta) (chaincodeID key : String) (value : Bytes) : StateDelta :=
  ⟨((chaincodeID, key), ⟨some value⟩) :: d.entries⟩

/-- Modelled from the spec: record a deletion (tombstone). -/
def StateDelta.delete (d : StateDelta) (chaincodeID key : String) : StateDelta :=
  ⟨((chaincodeID, key), ⟨none⟩) :: d.entries⟩

/-- Modelled from the spec: a delta is empty iff it records no changes. -/
def StateDelta.isEmpty (d : StateDelta) : Bool :=
  d.entries.isEmpty

/-- Modelled from the spec: `ApplyChanges` merges `other` into `d`; every
entry of `other` overrides the entry of `d` for the same pair. -/
def StateDelta.applyChanges (d other : StateDelta) : StateDelta :=
  ⟨other.entries ++ d.entries⟩

/-- Length-prefixed byte encoding of a string, used by the concrete model
of the collaborator's deterministic serialization. -/
def encodeString (s : String) : Bytes :=
  s.length :: (s.toList.map Char.toNat)

/-- Byte encoding of an optional value, tagged by presence. -/
def encodeOptBytes : Option Bytes → Bytes
  | none => [0]
  | some bs => 1 :: bs.length :: bs

/-- Modelled from the spec: `Marshal`, a deterministic serialization of a
delta's contents. -/
def StateDelta.marshal (d : StateDelta) : Bytes :=
  d.entries.foldr
    (fun e acc => encodeString e.1.1 ++ encodeString e.1.2 ++ encodeOptBytes e.2.value ++ acc) []

/-- Modelled from the spec: `ComputeCryptoHash`, a deterministic
cryptographic digest of the delta's contents; the hashing algorithm itself
is out of scope, so the model takes a fixed deterministic function of the
contents. -/
def StateDelta.computeCryptoHash (d : StateDelta) : Bytes :=
  d.marshal

/-- Parses one marshalled entry from the front of a byte string. -/
def decodeEntry (bs : Bytes) : Option (((String × String) × UpdatedValue) × Bytes) :=
  match bs with
  | n1 :: rest1 =>
    if rest1.length < n1 then none
    else
      let cid := String.mk ((rest1.take n1).map Char.ofNat)
      match rest1.drop n1 with
      | n2 :: rest2 =>
        if rest2.length < n2 then none
        else
          let k := String.mk ((rest2.take n2).map Char.ofNat)
          match rest2.drop n2 with
          | 0 :: rest3 => some (((cid, k), ⟨none⟩), rest3)
          | 1 :: ln :: rest3 =>
            if rest3.length < ln then none
            else some (((cid, k), ⟨some (rest3.take ln)⟩), rest3.drop ln)
          | _ => none
      | [] => none
  | [] => none

/-- Fuel-bounded entry-list parser backing `StateDelta.unmarshal`. -/
def unmarshalEntries : Nat → Bytes → List ((String × String) × UpdatedValue)
  | 0, _ => []
  | _ + 1, [] => []
  | fuel + 1, bs =>
    match decodeEntry bs with
    | none => []
    | some (e, rest) => e :: unmarshalEntries fuel rest

/-- Modelled from the spec: `Unmarshal`, deserialization of a delta. -/
def StateDelta.unmarshal (bs : Bytes) : StateDelta :=
  ⟨unmarshalEntries bs.length bs⟩

/-- Modelled from the spec: the Hashable State Store collaborator, as a
test double: its committed key/value content, the working set most
recently prepared into it, and the observable count of
`PrepareWorkingSet` calls. -/
structure HashableState where
  persisted : List ((String × String) × Bytes)
  workingSet : StateDelta
  prepareCalls : Nat
deriving DecidableEq

/-- Modelled from the spec: `get` reads the committed content. -/
def HashableState.get (hs : HashableState) (chaincodeID key : String) : Option Bytes :=
  hs.persisted.lookup (chaincodeID, key)

/-- Modelled from the spec: `PrepareWorkingSet` installs the delta as the
working set; the call count is the test-double observation point. -/
def HashableState.prepareWorkingSet (hs : HashableState) (delta : StateDelta) : HashableState :=
  { hs with workingSet := delta, prepareCalls := hs.prepareCalls + 1 }

/-- Modelled from the spec: `ComputeCryptoHash` is a deterministic
function of the store's committed content and its working set. -/
def HashableState.computeCryptoHash (hs : HashableState) : Bytes :=
  hs.workingSet.marshal ++
    hs.persisted.foldr (fun e acc => encodeString e.1.1 ++ encodeString e.1.2 ++ e.2 ++ acc) []

/-- Modelled from the spec: `ClearWorkingSet` discards the working set. -/
def HashableState.clearWorkingSet (hs : HashableState) : HashableState :=
  { hs with workingSet := NewStateDelta }

/-- From the `State` struct in state.go: the transactional state manager.
The Go map `txStateDeltaHash : map[string][]byte` becomes an association
list from tx id to `Option Bytes` (a `none` value is Go's nil slice, a
present-but-nil entry); absence of the key is absence from the list. -/
structure State where
  stateImpl : HashableState
  stateDelta : StateDelta
  currentTxStateDelta : StateDelta
  currentTxUUID : String
  txStateDeltaHash : List (String × Option Bytes)
  updateStateImpl : Bool
deriving DecidableEq

/-- Go map assignment `m[k] = v`: the new binding overrides any prior one. -/
def mapSet (m : List (String × Option Bytes)) (k : String) (v : Option Bytes) :
    List (String × Option Bytes) :=
  (k, v) :: m

/-- From `txInProgress` in state.go. -/
def State.txInProgress (state : State) : Bool :=
  state.currentTxUUID != ""

/-- From `TxBegin` in state.go; the panic on a transaction already in
progress is modelled as `none`. -/
def State.txBegin (state : State) (txUUID : String) : Option State :=
  if state.txInProgress then none
  else some { state with currentTxUUID := txUUID }

/-- From `TxFinish` in state.go; the panic on a mismatched id is modelled
as `none`. -/
def State.txFinish (state : State) (txUUID : String) (txSuccessful : Bool) : Option State :=
  if state.currentTxUUID ≠ txUUID then none
  else
    let state1 :=
      if txSuccessful then
        if !state.currentTxStateDelta.isEmpty then
          { state with
              stateDelta := state.stateDelta.applyChanges state.currentTxStateDelta,
              txStateDeltaHash := mapSet state.txStateDeltaHash txUUID
                (some state.currentTxStateDelta.computeCryptoHash),
              updateStateImpl := true }
        else
          { state with txStateDeltaHash := mapSet state.txStateDeltaHash txUUID none }
      else state
    some { state1 with currentTxStateDelta := NewStateDelta, currentTxUUID := "" }

/-- From `Get` in state.go: the three-tier read path. -/
def State.get (state : State) (chaincodeID key : String) (committed : Bool) : Option Bytes :=
  if !committed then
    match state.currentTxStateDelta.get chaincodeID key with
    | some valueHolder => valueHolder.value
    | none =>
      match state.stateDelta.get chaincodeID key with
      | some valueHolder => valueHolder.value
      | none => state.stateImpl.get chaincodeID key
  else state.stateImpl.get chaincodeID key

/-- From `Set` in state.go; the panic outside a transaction is `none`. -/
def State.set (state : State) (chaincodeID key : String) (value : Bytes) : Option State :=
  if !state.txInProgress then none
  else some { state with currentTxStateDelta := state.currentTxStateDelta.set chaincodeID key value }

/-- From `Delete` in state.go; the panic outside a transaction is `none`. -/
def State.delete (state : State) (chaincodeID key : String) : Option State :=
  if !state.txInProgress then none
  else some { state with currentTxStateDelta := state.currentTxStateDelta.delete chaincodeID key }

/-- From `GetHash` in state.go: prepare the working set if dirty, clear
the flag, then hash; returns the hash with the updated manager. -/
def State.getHash (state : State) : Bytes × State :=
  let state1 :=
    if state.updateStateImpl then
      { state with
          stateImpl := state.stateImpl.prepareWorkingSet state.stateDelta,
          updateStateImpl := false }
    else state
  (state1.stateImpl.computeCryptoHash, state1)

/-- From `GetTxStateDeltaHash` in state.go. -/
def State.getTxStateDeltaHash (state : State) : List (String × Option Bytes) :=
  state.txStateDeltaHash

/-- From `ClearInMemoryChanges` in state.go: reset the aggregate delta and
the per-tx hash map and discard the collaborator's working set. -/
def State.clearInMemoryChanges (state : State) : State :=
  { state with
      stateDelta := NewStateDelta,
      txStateDeltaHash := [],
      stateImpl := state.stateImpl.clearWorkingSet }

/-- The column family holding historical state deltas, an opaque handle in
the Go code (`db.GetDBHandle().StateDeltaCF`). -/
def stateDeltaCF : String := "stateDeltaCF"

/-- From state.go: `historyStateDeltaSize`, the retention window. -/
def historyStateDeltaSize : Nat := 500

/-- One staged operation of a RocksDB write batch; `implChanges` stands
for the opaque changes the Hashable State Store appends for the working
set it currently holds (`stateImpl.AddChangesForPersistence`). -/
inductive BatchOp where
  | putCF (cf : String) (key value : Bytes)
  | deleteCF (cf : String) (key : Bytes)
  | implChanges (workingSet : StateDelta)
deriving DecidableEq

/-- From `AddChangesForPersistence` in state.go, with the retention window
`w` a parameter (the source fixes it to `historyStateDeltaSize`): prepare
the working set if dirty, let the store append its changes, stage the
serialized aggregate delta under the history key for `blockNumber`, and
stage the deletion of the entry for `blockNumber - w` when
`blockNumber ≥ w`. -/
def State.addChangesForPersistenceW (w : Nat) (state : State) (blockNumber : Nat)
    (writeBatch : List BatchOp) : State × List BatchOp :=
  let state1 :=
    if state.updateStateImpl then
      { state with
          stateImpl := state.stateImpl.prepareWorkingSet state.stateDelta,
          updateStateImpl := false }
    else state
  let batch1 := writeBatch ++ [BatchOp.implChanges state1.stateImpl.workingSet]
  let batch2 := batch1 ++
    [BatchOp.putCF stateDeltaCF (encodeStateDeltaKey blockNumber) state1.stateDelta.marshal]
  let batch3 :=
    if blockNumber ≥ w then
      batch2 ++ [BatchOp.deleteCF stateDeltaCF (encodeStateDeltaKey (blockNumber - w))]
    else batch2
  (state1, batch3)

/-- From `AddChangesForPersistence` in state.go, at the source's fixed
window size. -/
def State.addChangesForPersistence (state : State) (blockNumber : Nat)
    (writeBatch : List BatchOp) : State × List BatchOp :=
  state.addChangesForPersistenceW historyStateDeltaSize blockNumber writeBatch

/-- From `FetchStateDeltaFromDB` in state.go; the database read
`GetFromStateDeltaCF` is a parameter mapping a key to an I/O error, an
absent entry, or the stored bytes. -/
def fetchStateDeltaFromDB (getFromStateDeltaCF : Bytes → Except String (Option Bytes))
    (blockNumber : Nat) : Except String (Option StateDelta) :=
  match getFromStateDeltaCF (encodeStateDeltaKey blockNumber) with
  | .error err => .error err
  | .ok none => .ok none
  | .ok (some stateDeltaBytes) => .ok (some (StateDelta.unmarshal stateDeltaBytes))

/-- The view of the history column family as a map from decoded block
number to stored bytes, after one staged batch operation is applied. -/
def applyStateDeltaOp (h : Nat → Option Bytes) : BatchOp → (Nat → Option Bytes)
  | BatchOp.putCF cf k v =>
    if cf = stateDeltaCF then fun m => if m = decodeToUint64 k then some v else h m else h
  | BatchOp.deleteCF cf k =>
    if cf = stateDeltaCF then fun m => if m = decodeToUint64 k then none else h m else h
  | BatchOp.implChanges _ => h

/-- Applies a staged batch to the history view, left to right. -/
def applyStateDeltaOps (h : Nat → Option Bytes) (ops : List BatchOp) : Nat → Option Bytes :=
  ops.foldl applyStateDeltaOp h

/-- The effect on the history view of staging block `n` with window `w`
and serialized delta `d`: put the entry for `n`, then delete the entry for
`n - w` when `n ≥ w`. -/
def stageBlockHistory (w : Nat) (d : Bytes) (n : Nat) (h : Nat → Option Bytes) :
    Nat → Option Bytes :=
  let h1 : Nat → Option Bytes := fun m => if m = n then some d else h m
  if n ≥ w then fun m => if m = n - w then none else h1 m else h1

/-- The history view after blocks `0, 1, …, n` are staged in order with
window `w`, block `i` carrying serialized delta `deltas i`. -/
def stagedHistory (w : Nat) (deltas : Nat → Bytes) : Nat → Nat → Option Bytes
  | 0 => stageBlockHistory w (deltas 0) 0 (fun _ => none)
  | n + 1 => stageBlockHistory w (deltas (n + 1)) (n + 1) (stagedHistory w deltas n)

/-- A small committed store used by the concrete evaluation theorems. -/
def hs0 : HashableState :=
  ⟨[(("cc1", "k0"), [7])], NewStateDelta, 0⟩

/-- An in-flight transaction delta with one write, for concrete runs. -/
def txd0 : StateDelta :=
  StateDelta.set NewStateDelta "cc1" "k1" [1, 2]

/-- A manager with transaction "t1" in flight holding one write. -/
def st0 : State :=
  ⟨hs0, NewStateDelta, txd0, "t1", [], false⟩

/-- A manager with no transaction in flight. -/
def stIdle : State :=
  ⟨hs0, NewStateDelta, NewStateDelta, "", [], false⟩

/-- An idle manager whose dirty flag is set. -/
def stDirty : State :=
  ⟨hs0, NewStateDelta, NewStateDelta, "", [], true⟩

/-- A manager with transaction "t1" in flight and an empty tx delta. -/
def stEmptyTx : State :=
  ⟨hs0, NewStateDelta, NewStateDelta, "t1", [], false⟩

/-- A database read that finds no entry for any key. -/
def dbGetEmpty : Bytes → Except String (Option Bytes) :=
  fun _ => Except.ok none

/-- A per-block serialized-delta assignment for concrete history runs. -/
def deltasConst : Nat → Bytes :=
  fun _ => []

/-- The per-tx hash recorded for `txUUID` by a successful finish of
`state`, observed through the `Option` of the possibly-aborting call. -/
def lookupHashOfFinish (state : State) (txUUID : String) : Option (Option (Option Bytes)) :=
  (state.txFinish txUUID true).map (fun st => st.txStateDeltaHash.lookup txUUID)

theorem encodeBE_length (w n : Nat) : (encodeBE w n).length = w := by
  induction w generalizing n with
  | zero => rfl
  | succ w ih => simp [encodeBE, ih]

theorem foldl_encodeBE (w : Nat) : ∀ a n : Nat,
    (encodeBE w n).foldl (fun acc b => acc * 256 + b) a = a * 256 ^ w + n % 256 ^ w := by
  induction w with
  | zero => intro a n; simp [encodeBE, Nat.mod_one]
  | succ w ih =>
    intro a n
    have hsplit : n % 256 ^ (w + 1) = 256 ^ w * (n / 256 ^ w % 256) + n % 256 ^ w := by
      have h2 : 256 ^ (w + 1) = 256 ^ w * 256 := by ring
      rw [h2, Nat.mod_mul]
      exact Nat.add_comm _ _
    simp only [encodeBE, List.foldl_cons, ih]
    have h2 : 256 ^ (w + 1) = 256 ^ w * 256 := by ring
    calc (a * 256 + n / 256 ^ w % 256) * 256 ^ w + n % 256 ^ w
        = a * (256 ^ w * 256) + (256 ^ w * (n / 256 ^ w % 256) + n % 256 ^ w) := by ring
      _ = a * 256 ^ (w + 1) + n % 256 ^ (w + 1) := by rw [← hsplit, ← h2]

theorem decodeBE_encodeBE (w n : Nat) : decodeBE (encodeBE w n) = n % 256 ^ w := by
  have := foldl_encodeBE w 0 n
  simpa [decodeBE] using this

theorem encodeBE_mod_eq (w : Nat) : ∀ m n : Nat, m % 256 ^ w = n % 256 ^ w →
    encodeBE w m = encodeBE w n := by
  induction w with
  | zero => intro m n _; rfl
  | succ w ih =>
    intro m n h
    have hpow : 256 ^ (w + 1) = 256 ^ w * 256 := by ring
    have hhead : m / 256 ^ w % 256 = n / 256 ^ w % 256 := by
      have hm : m % (256 ^ w * 256) / 256 ^ w = m / 256 ^ w % 256 :=
        Nat.mod_mul_right_div_self m (256 ^ w) 256
      have hn : n % (256 ^ w * 256) / 256 ^ w = n / 256 ^ w % 256 :=
        Nat.mod_mul_right_div_self n (256 ^ w) 256
      rw [← hm, ← hn, ← hpow, h]
    have htail : m % 256 ^ w = n % 256 ^ w := by
      have hdvd : (256 ^ w : Nat) ∣ 256 ^ (w + 1) := Dvd.intro 256 (by ring)
      calc m % 256 ^ w = m % 256 ^ (w + 1) % 256 ^ w := (Nat.mod_mod_of_dvd m hdvd).symm
        _ = n % 256 ^ (w + 1) % 256 ^ w := by rw [h]
        _ = n % 256 ^ w := Nat.mod_mod_of_dvd n hdvd
    simp [encodeBE, hhead, ih _ _ htail]

theorem encodeBE_lt (w : Nat) : ∀ m n : Nat, m < n → n < 256 ^ w →
    bytesLexLt (encodeBE w m) (encodeBE w n) = true := by
  induction w with
  | zero => intro m n hmn hn; omega
  | succ w ih =>
    intro m n hmn hn
    have hpow : 256 ^ (w + 1) = 256 ^ w * 256 := by ring
    have hposw : 0 < (256 : Nat) ^ w := Nat.pos_pow_of_pos w (by omega)
    have hdivle : m / 256 ^ w ≤ n / 256 ^ w := Nat.div_le_div_right (Nat.le_of_lt hmn)
    have hndiv : n / 256 ^ w < 256 := by
      apply Nat.div_lt_of_lt_mul
      omega
    have hmdiv : m / 256 ^ w < 256 := by
      apply Nat.div_lt_of_lt_mul
      omega
    have hmmod : m / 256 ^ w % 256 = m / 256 ^ w := Nat.mod_eq_of_lt hmdiv
    have hnmod : n / 256 ^ w % 256 = n / 256 ^ w := Nat.mod_eq_of_lt hndiv
    rcases Nat.lt_or_ge (m / 256 ^ w) (n / 256 ^ w) with hlt | hge
    · simp [encodeBE, bytesLexLt, hmmod, hnmod, hlt]
    · have heq : m / 256 ^ w = n / 256 ^ w := Nat.le_antisymm hdivle hge
      have hmodlt : m % 256 ^ w < n % 256 ^ w := by
        have hm := Nat.div_add_mod m (256 ^ w)
        have hn2 := Nat.div_add_mod n (256 ^ w)
        rw [heq] at hm
        omega
      have hrec : bytesLexLt (encodeBE w m) (encodeBE w n) = true := by
        have e1 : encodeBE w m = encodeBE w (m % 256 ^ w) :=
          encodeBE_mod_eq w m (m % 256 ^ w) (Nat.mod_mod_of_dvd m dvd_rfl).symm
        have e2 : encodeBE w n = encodeBE w (n % 256 ^ w) :=
          encodeBE_mod_eq w n (n % 256 ^ w) (Nat.mod_mod_of_dvd n dvd_rfl).symm
        rw [e1, e2]
        exact ih _ _ hmodlt (Nat.mod_lt n hposw)
      simp [encodeBE, bytesLexLt, hmmod, hnmod, heq, hrec]

/-- C8: the history key is the 8-byte big-endian encoding of the block
number: decoding inverts encoding on every `uint64`, every key has length
exactly 8, and the encoding is strictly monotone with respect to
lexicographic byte order, so lexicographic key order coincides with
numeric block order. -/
theorem stateDeltaKey_bigEndian (m n : Nat) :
    (n < 2 ^ 64 → decodeToUint64 (encodeUint64 n) = n) ∧
    (encodeUint64 n).length = 8 ∧
    (m < n → n < 2 ^ 64 → bytesLexLt (encodeUint64 m) (encodeUint64 n) = true) ∧
    encodeStateDeltaKey n = encodeUint64 n := by
  refine ⟨?_, ?_, ?_, rfl⟩
  · intro hn
    have h : (256 : Nat) ^ 8 = 2 ^ 64 := by norm_num
    have := decodeBE_encodeBE 8 n
    simp only [decodeToUint64, encodeUint64, this, h]
    exact Nat.mod_eq_of_lt hn
  · exact encodeBE_length 8 n
  · intro hmn hn
    have h : (256 : Nat) ^ 8 = 2 ^ 64 := by norm_num
    exact encodeBE_lt 8 m n hmn (by omega)

/-- Witness for C8 at concrete block numbers 259 and 260. -/
theorem stateDeltaKey_bigEndian_witness :
    decodeToUint64 (encodeUint64 260) = 260 ∧
    (encodeUint64 260).length = 8 ∧
    bytesLexLt (encodeUint64 259) (encodeUint64 260) = true := by
  refine ⟨(stateDeltaKey_bigEndian 259 260).1 (by norm_num), ?_, ?_⟩
  · exact (stateDeltaKey_bigEndian 259 260).2.1
  · exact (stateDeltaKey_bigEndian 259 260).2.2.1 (by norm_num) (by norm_num)

/-- C1: with a transaction in flight whose id equals `txId`, a successful
`TxFinish` with a non-empty current tx delta merges that delta into the
aggregate delta, records its cryptographic hash under `txId`, and sets the
dirty flag; an unsuccessful `TxFinish` merges nothing and records no hash;
and in every case the current tx delta is reset to empty and the current
tx id is cleared. -/
theorem txFinish_spec (state : State) (txId : String)
    (_hin : state.txInProgress = true) (hid : state.currentTxUUID = txId) :
    (∃ st1, state.txFinish txId true = some st1 ∧
      (state.currentTxStateDelta.isEmpty = false →
        st1.stateDelta = state.stateDelta.applyChanges state.currentTxStateDelta ∧
        st1.txStateDeltaHash.lookup txId =
          some (some state.currentTxStateDelta.computeCryptoHash) ∧
        st1.updateStateImpl = true) ∧
      st1.currentTxStateDelta = NewStateDelta ∧
      st1.currentTxUUID = "") ∧
    (∃ st2, state.txFinish txId false = some st2 ∧
      st2.stateDelta = state.stateDelta ∧
      st2.txStateDeltaHash = state.txStateDeltaHash ∧
      st2.currentTxStateDelta = NewStateDelta ∧
      st2.currentTxUUID = "") := by
  constructor
  · cases hne : state.currentTxStateDelta.isEmpty with
    | false =>
      refine ⟨{ state with
          stateDelta := state.stateDelta.applyChanges state.currentTxStateDelta,
          txStateDeltaHash := mapSet state.txStateDeltaHash txId
            (some state.currentTxStateDelta.computeCryptoHash),
          updateStateImpl := true,
          currentTxStateDelta := NewStateDelta,
          currentTxUUID := "" }, ?_, ?_, rfl, rfl⟩
      · simp [State.txFinish, hid, hne]
      · intro _
        exact ⟨rfl, by simp [mapSet], rfl⟩
    | true =>
      refine ⟨{ state with
          txStateDeltaHash := mapSet state.txStateDeltaHash txId none,
          currentTxStateDelta := NewStateDelta,
          currentTxUUID := "" }, ?_, ?_, rfl, rfl⟩
      · simp [State.txFinish, hid, hne]
      · intro hcontr
        exact absurd hcontr (by decide)
  · refine ⟨{ state with currentTxStateDelta := NewStateDelta, currentTxUUID := "" },
      ?_, rfl, rfl, rfl, rfl⟩
    simp [State.txFinish, hid]

/-- Witness for C1: finishing transaction "t1" of `st0` succeeds in both
the successful and the unsuccessful mode. -/
theorem txFinish_spec_witness :
    (st0.txFinish "t1" true).isSome = true ∧ (st0.txFinish "t1" false).isSome = true := by
  obtain ⟨⟨st1, h1, -, -⟩, ⟨st2, h2, -⟩⟩ := txFinish_spec st0 "t1" rfl rfl
  rw [h1, h2]
  exact ⟨rfl, rfl⟩

/-- C2: `Get` with `committed = false` takes the value recorded in the
current tx delta when present, otherwise the value recorded in the
aggregate delta, otherwise the persisted store's answer; with
`committed = true` it reads the persisted store directly. -/
theorem get_readPath (state : State) (chaincodeID key : String) :
    (∀ valueHolder, state.currentTxStateDelta.get chaincodeID key = some valueHolder →
      state.get chaincodeID key false = valueHolder.value) ∧
    (state.currentTxStateDelta.get chaincodeID key = none →
      ∀ valueHolder, state.stateDelta.get chaincodeID key = some valueHolder →
        state.get chaincodeID key false = valueHolder.value) ∧
    (state.currentTxStateDelta.get chaincodeID key = none →
      state.stateDelta.get chaincodeID key = none →
      state.get chaincodeID key false = state.stateImpl.get chaincodeID key) ∧
    state.get chaincodeID key true = state.stateImpl.get chaincodeID key := by
  refine ⟨?_, ?_, ?_, rfl⟩
  · intro valueHolder h
    simp [State.get, h]
  · intro h1 valueHolder h2
    simp [State.get, h1, h2]
  · intro h1 h2
    simp [State.get, h1, h2]

/-- Witness for C2: in `st0` the in-flight write to ("cc1","k1") is read
back uncommitted, and the committed read of ("cc1","k0") delegates to the
persisted store. -/
theorem get_readPath_witness :
    st0.get "cc1" "k1" false = some [1, 2] ∧
    st0.get "cc1" "k0" true = st0.stateImpl.get "cc1" "k0" := by
  constructor
  · exact (get_readPath st0 "cc1" "k1").1 ⟨some [1, 2]⟩ (by decide)
  · exact (get_readPath st0 "cc1" "k0").2.2.2

/-- C5: each protocol violation aborts (no successor state is produced,
so no delta or storage is modified): `TxBegin` while a transaction is in
flight, `TxFinish` with an id different from the in-flight one, and `Set`
or `Delete` outside a transaction. -/
theorem protocolViolation_panics (state : State) (txId chaincodeID key : String)
    (value : Bytes) (successful : Bool) :
    (state.txInProgress = true → state.txBegin txId = none) ∧
    (state.currentTxUUID ≠ txId → state.txFinish txId successful = none) ∧
    (state.txInProgress = false → state.set chaincodeID key value = none) ∧
    (state.txInProgress = false → state.delete chaincodeID key = none) := by
  refine ⟨?_, ?_, ?_, ?_⟩
  · intro h
    simp [State.txBegin, h]
  · intro h
    simp [State.txFinish, h]
  · intro h
    simp [State.set, h]
  · intro h
    simp [State.delete, h]

/-- Witness for C5: `st0` (transaction "t1" in flight) rejects a second
begin and a mismatched finish; `stIdle` rejects writes. -/
theorem protocolViolation_panics_witness :
    st0.txBegin "t2" = none ∧
    st0.txFinish "t9" true = none ∧
    stIdle.set "cc1" "k1" [1] = none ∧
    stIdle.delete "cc1" "k1" = none :=
  ⟨(protocolViolation_panics st0 "t2" "cc1" "k1" [1] true).1 rfl,
   (protocolViolation_panics st0 "t9" "cc1" "k1" [1] true).2.1 (by decide),
   (protocolViolation_panics stIdle "t9" "cc1" "k1" [1] true).2.2.1 rfl,
   (protocolViolation_panics stIdle "t9" "cc1" "k1" [1] true).2.2.2 rfl⟩

/-- C3: `GetHash` is idempotent with respect to working-set preparation:
two calls with no intervening writes return the same hash and the same
manager, prepare the working set at most once in total, and the first call
pushes the aggregate delta only when the dirty flag is set, clearing the
flag, so the second call skips preparation entirely. -/
theorem getHash_idempotent (state : State) :
    ((state.getHash).2.getHash).1 = (state.getHash).1 ∧
    ((state.getHash).2.getHash).2 = (state.getHash).2 ∧
    (state.getHash).2.updateStateImpl = false ∧
    (state.updateStateImpl = false → (state.getHash).2 = state) ∧
    (state.updateStateImpl = true →
      (state.getHash).2.stateImpl = state.stateImpl.prepareWorkingSet state.stateDelta ∧
      (state.getHash).2.stateImpl.prepareCalls = state.stateImpl.prepareCalls + 1) ∧
    ((state.getHash).2.getHash).2.stateImpl.prepareCalls ≤ state.stateImpl.prepareCalls + 1 := by
  cases hdirty : state.updateStateImpl with
  | false =>
    refine ⟨?_, ?_, ?_, ?_, ?_, ?_⟩ <;>
      simp [State.getHash, hdirty, HashableState.prepareWorkingSet]
  | true =>
    refine ⟨?_, ?_, ?_, ?_, ?_, ?_⟩ <;>
      simp [State.getHash, hdirty, HashableState.prepareWorkingSet]

/-- Witness for C3: on the dirty idle manager `stDirty`, the two hashes
agree and exactly one preparation happened. -/
theorem getHash_idempotent_witness :
    ((stDirty.getHash).2.getHash).1 = (stDirty.getHash).1 ∧
    (stDirty.getHash).2.stateImpl.prepareCalls = 1 := by
  have h := getHash_idempotent stDirty
  refine ⟨h.1, ?_⟩
  have h2 := (h.2.2.2.2.1 rfl).2
  simpa using h2

/-- C6: `FetchStateDeltaFromDB` propagates a storage error, returns the
not-found result (no delta, no error) when the store has no entry for the
block's history key, and otherwise deserializes the stored bytes. -/
theorem fetchStateDeltaFromDB_spec (dbGet : Bytes → Except String (Option Bytes))
    (blockNumber : Nat) :
    (∀ err, dbGet (encodeStateDeltaKey blockNumber) = Except.error err →
      fetchStateDeltaFromDB dbGet blockNumber = Except.error err) ∧
    (dbGet (encodeStateDeltaKey blockNumber) = Except.ok none →
      fetchStateDeltaFromDB dbGet blockNumber = Except.ok none) ∧
    (∀ stateDeltaBytes, dbGet (encodeStateDeltaKey blockNumber) = Except.ok (some stateDeltaBytes) →
      fetchStateDeltaFromDB dbGet blockNumber =
        Except.ok (some (StateDelta.unmarshal stateDeltaBytes))) := by
  refine ⟨?_, ?_, ?_⟩
  · intro err h
    simp [fetchStateDeltaFromDB, h]
  · intro h
    simp [fetchStateDeltaFromDB, h]
  · intro stateDeltaBytes h
    simp [fetchStateDeltaFromDB, h]

/-- Witness for C6: with no entry stored for block 7, the fetch is the
not-found result and not an error. -/
theorem fetchStateDeltaFromDB_spec_witness :
    fetchStateDeltaFromDB dbGetEmpty 7 = Except.ok none :=
  (fetchStateDeltaFromDB_spec dbGetEmpty 7).2.1 rfl

/-- C7: a successful `TxFinish` whose current tx delta is empty records a
present entry under `txId` holding the explicit no-op marker (Go's nil
hash), so a lookup distinguishes "ran with no writes" (entry present with
the marker) from "never ran" (no entry), ids never recorded staying
absent. -/
theorem txFinish_emptyDelta_marker (state : State) (txId : String)
    (hid : state.currentTxUUID = txId) (hempty : state.currentTxStateDelta.isEmpty = true) :
    ∃ st1, state.txFinish txId true = some st1 ∧
      st1.txStateDeltaHash.lookup txId = some none ∧
      (∀ txId2, txId2 ≠ txId → state.txStateDeltaHash.lookup txId2 = none →
        st1.txStateDeltaHash.lookup txId2 = none) := by
  refine ⟨{ state with
      txStateDeltaHash := mapSet state.txStateDeltaHash txId none,
      currentTxStateDelta := NewStateDelta,
      currentTxUUID := "" }, ?_, ?_, ?_⟩
  · simp [State.txFinish, hid, hempty]
  · simp [mapSet]
  · intro txId2 hne habs
    have hbeq : (txId2 == txId) = false := by
      simp [hne]
    simp [mapSet, List.lookup, hbeq, habs]

/-- Witness for C7: finishing the write-free transaction "t1" of
`stEmptyTx` records the marker entry, observed as a present binding whose
value is the nil hash. -/
theorem txFinish_emptyDelta_marker_witness :
    lookupHashOfFinish stEmptyTx "t1" = some (some none) := by
  obtain ⟨st1, h1, h2, -⟩ := txFinish_emptyDelta_marker stEmptyTx "t1" rfl rfl
  simp [lookupHashOfFinish, h1, h2]

/-- C9: when no transaction is in flight, `TxFinish` with the empty string
as id passes the mismatch check and does not abort, and a successful such
finish records an entry under the empty-string id, so the manager cannot
detect a finish without a matching begin when the supplied id is empty. -/
theorem txFinish_emptyId_noAbort (state : State) (successful : Bool)
    (hidle : state.currentTxUUID = "") :
    (state.txFinish "" successful).isSome = true ∧
    (successful = true → ∃ st1, state.txFinish "" successful = some st1 ∧
      (st1.txStateDeltaHash.lookup "").isSome = true) := by
  cases successful with
  | false =>
    constructor
    · simp [State.txFinish, hidle]
    · intro hcontr
      exact absurd hcontr (by decide)
  | true =>
    cases hne : state.currentTxStateDelta.isEmpty with
    | false =>
      constructor
      · simp [State.txFinish, hidle, hne]
      · intro _
        refine ⟨{ state with
            stateDelta := state.stateDelta.applyChanges state.currentTxStateDelta,
            txStateDeltaHash := mapSet state.txStateDeltaHash ""
              (some state.currentTxStateDelta.computeCryptoHash),
            updateStateImpl := true,
            currentTxStateDelta := NewStateDelta,
            currentTxUUID := "" }, ?_, ?_⟩
        · simp [State.txFinish, hidle, hne]
        · simp [mapSet]
    | true =>
      constructor
      · simp [State.txFinish, hidle, hne]
      · intro _
        refine ⟨{ state with
            txStateDeltaHash := mapSet state.txStateDeltaHash "" none,
            currentTxStateDelta := NewStateDelta,
            currentTxUUID := "" }, ?_, ?_⟩
        · simp [State.txFinish, hidle, hne]
        · simp [mapSet]

/-- Witness for C9: the idle manager `stIdle` accepts a successful
`TxFinish` under the empty id. -/
theorem txFinish_emptyId_noAbort_witness :
    (stIdle.txFinish "" true).isSome = true :=
  (txFinish_emptyId_noAbort stIdle true rfl).1

/-- C10: `ClearInMemoryChanges` resets the aggregate delta and the per-tx
hash map and discards the working set, but leaves the dirty flag as it
was; so if the flag was set, the next `GetHash` or
`AddChangesForPersistence` prepares the now-empty aggregate delta into the
working set as a fresh preparation. -/
theorem clearInMemoryChanges_frame (state : State) (blockNumber : Nat)
    (writeBatch : List BatchOp) :
    (state.clearInMemoryChanges).updateStateImpl = state.updateStateImpl ∧
    (state.clearInMemoryChanges).stateDelta = NewStateDelta ∧
    (state.clearInMemoryChanges).txStateDeltaHash = [] ∧
    (state.clearInMemoryChanges).stateImpl = state.stateImpl.clearWorkingSet ∧
    (state.updateStateImpl = true →
      ((state.clearInMemoryChanges).getHash).2.stateImpl =
        (state.stateImpl.clearWorkingSet).prepareWorkingSet NewStateDelta ∧
      ((state.clearInMemoryChanges).addChangesForPersistence blockNumber writeBatch).1.stateImpl =
        (state.stateImpl.clearWorkingSet).prepareWorkingSet NewStateDelta) := by
  refine ⟨rfl, rfl, rfl, rfl, ?_⟩
  intro hdirty
  constructor
  · simp [State.clearInMemoryChanges, State.getHash, hdirty]
  · simp [State.clearInMemoryChanges, State.addChangesForPersistence,
      State.addChangesForPersistenceW, hdirty]

/-- Witness for C10: clearing the dirty manager `stDirty` keeps the flag
set and the next `GetHash` performs a fresh preparation of the empty
delta. -/
theorem clearInMemoryChanges_frame_witness :
    (stDirty.clearInMemoryChanges).updateStateImpl = true ∧
    ((stDirty.clearInMemoryChanges).getHash).2.stateImpl =
      (stDirty.stateImpl.clearWorkingSet).prepareWorkingSet NewStateDelta := by
  have h := clearInMemoryChanges_frame stDirty 0 []
  exact ⟨h.1.trans rfl, (h.2.2.2.2 rfl).1⟩

theorem stageBlockHistory_apply (w : Nat) (d : Bytes) (n : Nat) (h : Nat → Option Bytes)
    (m : Nat) :
    stageBlockHistory w d n h m =
      if w ≤ n ∧ m = n - w then none else if m = n then some d else h m := by
  simp only [stageBlockHistory]
  split_ifs <;> simp_all

theorem stagedHistory_isSome (w : Nat) (deltas : Nat → Bytes) (n : Nat) :
    ∀ m, (stagedHistory w deltas n m).isSome = true ↔ (m ≤ n ∧ n < m + w) := by
  induction n with
  | zero =>
    intro m
    rw [show stagedHistory w deltas 0 = stageBlockHistory w (deltas 0) 0 (fun _ => none)
        from rfl, stageBlockHistory_apply]
    split_ifs <;> simp <;> omega
  | succ n ih =>
    intro m
    rw [show stagedHistory w deltas (n + 1) =
        stageBlockHistory w (deltas (n + 1)) (n + 1) (stagedHistory w deltas n) from rfl,
      stageBlockHistory_apply]
    split_ifs with h1 h2
    · simp
      omega
    · simp
      omega
    · rw [ih m]
      constructor
      · intro hc
        omega
      · intro hc
        omega

theorem stagedHistory_card_le (w : Nat) (deltas : Nat → Bytes) (n : Nat) :
    ((Finset.range (n + 1)).filter (fun m => (stagedHistory w deltas n m).isSome)).card ≤ w := by
  classical
  have hmaps : ∀ m ∈ (Finset.range (n + 1)).filter
      (fun m => (stagedHistory w deltas n m).isSome),
      m + w - (n + 1) ∈ Finset.range w := by
    intro m hm
    rw [Finset.mem_filter, Finset.mem_range] at hm
    have hchar := (stagedHistory_isSome w deltas n m).mp hm.2
    rw [Finset.mem_range]
    omega
  have hinj : Set.InjOn (fun m => m + w - (n + 1))
      ((Finset.range (n + 1)).filter (fun m => (stagedHistory w deltas n m).isSome)) := by
    intro a ha b hb hab
    rw [Finset.mem_coe, Finset.mem_filter] at ha hb
    have hca := (stagedHistory_isSome w deltas n a).mp ha.2
    have hcb := (stagedHistory_isSome w deltas n b).mp hb.2
    simp only at hab
    omega
  have := Finset.card_le_card_of_injOn (fun m => m + w - (n + 1)) hmaps hinj
  simpa using this

/-- C4: `AddChangesForPersistence` stages the serialized aggregate delta
under the history key for the block, stages the deletion of the entry for
`blockNumber - w` exactly when `blockNumber ≥ w` (the guarded subtraction
does not underflow), and consequently the history view obtained by staging
blocks `0..n` in order never holds more than `w` entries. -/
theorem addChangesForPersistence_history (w : Nat) (state : State) (blockNumber : Nat)
    (writeBatch : List BatchOp) (deltas : Nat → Bytes) (n : Nat) :
    state.addChangesForPersistence blockNumber writeBatch =
      state.addChangesForPersistenceW historyStateDeltaSize blockNumber writeBatch ∧
    (state.addChangesForPersistenceW w blockNumber writeBatch).2 =
      writeBatch ++
        [BatchOp.implChanges
            (if state.updateStateImpl then state.stateDelta else state.stateImpl.workingSet),
          BatchOp.putCF stateDeltaCF (encodeStateDeltaKey blockNumber)
            state.stateDelta.marshal] ++
        (if w ≤ blockNumber then
          [BatchOp.deleteCF stateDeltaCF (encodeStateDeltaKey (blockNumber - w))]
        else []) ∧
    (w ≤ blockNumber → blockNumber - w + w = blockNumber) ∧
    (blockNumber < 2 ^ 64 → ∀ h : Nat → Option Bytes,
      applyStateDeltaOps h (state.addChangesForPersistenceW w blockNumber []).2 =
        stageBlockHistory w state.stateDelta.marshal blockNumber h) ∧
    (∀ m, (stagedHistory w deltas n m).isSome = true ↔ (m ≤ n ∧ n < m + w)) ∧
    ((Finset.range (n + 1)).filter (fun m => (stagedHistory w deltas n m).isSome)).card ≤ w := by
  refine ⟨rfl, ?_, ?_, ?_, stagedHistory_isSome w deltas n, stagedHistory_card_le w deltas n⟩
  · simp only [State.addChangesForPersistenceW]
    cases hdirty : state.updateStateImpl <;>
      split_ifs <;>
      simp_all [HashableState.prepareWorkingSet]
  · omega
  · intro hlt h
    have h8 : (256 : Nat) ^ 8 = 2 ^ 64 := by norm_num
    have hdkey : decodeToUint64 (encodeStateDeltaKey blockNumber) = blockNumber := by
      have hd := decodeBE_encodeBE 8 blockNumber
      simp only [decodeToUint64, encodeStateDeltaKey, encodeUint64, hd, h8]
      exact Nat.mod_eq_of_lt hlt
    have hdkey2 : decodeToUint64 (encodeStateDeltaKey (blockNumber - w)) = blockNumber - w := by
      have hd := decodeBE_encodeBE 8 (blockNumber - w)
      simp only [decodeToUint64, encodeStateDeltaKey, encodeUint64, hd, h8]
      exact Nat.mod_eq_of_lt (by omega)
    funext m
    rw [stageBlockHistory_apply]
    simp only [State.addChangesForPersistenceW]
    cases hdirty : state.updateStateImpl <;>
      split_ifs with hw <;>
      simp_all [applyStateDeltaOps, applyStateDeltaOp, stateDeltaCF]

/-- Witness for C4: with window 5, staging block 15 stages the delta under
key 15 and deletes the history entry for block 10 in the same batch; after
staging blocks 0..15 the history view drops block 10 and keeps block 11. -/
theorem addChangesForPersistence_history_witness :
    (stDirty.addChangesForPersistenceW 5 15 []).2 =
      [BatchOp.implChanges stDirty.stateDelta,
        BatchOp.putCF stateDeltaCF (encodeStateDeltaKey 15) stDirty.stateDelta.marshal,
        BatchOp.deleteCF stateDeltaCF (encodeStateDeltaKey 10)] ∧
    (stagedHistory 5 deltasConst 15 10).isSome = false ∧
    (stagedHistory 5 deltasConst 15 11).isSome = true := by
  have h := addChangesForPersistence_history 5 stDirty 15 [] deltasConst 15
  refine ⟨?_, ?_, ?_⟩
  · rw [h.2.1]
    rfl
  · cases hs : (stagedHistory 5 deltasConst 15 10).isSome with
    | false => rfl
    | true =>
      have hc := (h.2.2.2.2.1 10).mp hs
      omega
  · exact (h.2.2.2.2.1 11).mpr (by omega)

end Fabric
